import Mathlib

/-!
# Formaze `useFormSchema`: a shallow embedding

This file embeds the schema compiler of the `formaze` form-validation
library (`src/package/specific/useFormSchema.ts`) together with the zod
rule shapes it constructs, and proves properties of the compiled rules.

Modelling decisions:
* JavaScript runtime values that reach a compiled rule are modelled by
  `JSValue` (undefined, strings, numbers, booleans); JS numbers are
  modelled by `Int`.
* A zod `RegExp` refinement is modelled by its match predicate
  `String → Bool`.
* A JS `Date` is modelled by its time value, an `Int`; date strings in
  the calendar-valid month-day-year shape the library's README uses
  (all parsed at local midnight of one runtime timezone) are parsed to
  an order-faithful encoding of the calendar date (JS compares `Date`s
  by their time value, so only order and equality matter); other shapes
  are outside the model and are treated as Invalid Dates.
* zod's built-in email format check is modelled by `zodEmail`, an
  executable rendering of zod's email regular expression.
-/

namespace Formaze

/-- JavaScript runtime values that can be handed to a compiled rule. -/
inductive JSValue where
  | undef
  | str (s : String)
  | num (n : Int)
  | bool (b : Bool)
deriving DecidableEq, Repr

/-- Strip leading and trailing whitespace from a character list. -/
def listTrim (l : List Char) : List Char :=
  ((l.dropWhile Char.isWhitespace).reverse.dropWhile Char.isWhitespace).reverse

/-- The numeric value of a non-empty all-digit character list. -/
def digitsVal? (l : List Char) : Option Nat :=
  if l ≠ [] ∧ l.all Char.isDigit then
    some (l.foldl (fun acc c => acc * 10 + (c.toNat - 48)) 0)
  else none

/-- Split a character list at every separator recognised by `p`
(separators are consumed; empty pieces are kept, as JS `split` does). -/
def splitOnPred (p : Char → Bool) : List Char → List (List Char)
  | [] => [[]]
  | c :: rest =>
    match splitOnPred p rest, p c with
    | r, true => [] :: r
    | [], false => [[c]]
    | h :: t, false => (c :: h) :: t

/-- JS `Number(string)` coercion, restricted to decimal integers: the
whitespace-trimmed empty string coerces to `0`, an optionally signed
digit string to its value, anything else to NaN (`none`). -/
def jsStringToNumber (s : String) : Option Int :=
  match listTrim s.data with
  | [] => some 0
  | c :: rest =>
    if c = '-' then (digitsVal? rest).map (fun n => -(n : Int))
    else if c = '+' then (digitsVal? rest).map (fun n => (n : Int))
    else (digitsVal? (c :: rest)).map (fun n => (n : Int))

/-- JS `Number(x)` coercion. `undefined` coerces to NaN (`none`). -/
def jsNumber : JSValue → Option Int
  | .undef => none
  | .str s => jsStringToNumber s
  | .num n => some n
  | .bool b => some (if b then 1 else 0)

/-- Order-faithful encoding of a calendar date as a single integer. For
dates all parsed at local midnight of one runtime timezone (the only
shape `jsDateParse` models), this ordering coincides with the ordering
of the JS time values. -/
def dateEncode (y m d : Nat) : Int :=
  ((y * 10000 + m * 100 + d : Nat) : Int)

/-- The number of days in a month, leap years included, as the engine's
date parser validates day-of-month. -/
def daysInMonth (y m : Nat) : Nat :=
  if m = 2 then (if (y % 4 = 0 ∧ y % 100 ≠ 0) ∨ y % 400 = 0 then 29 else 28)
  else if m = 4 ∨ m = 6 ∨ m = 9 ∨ m = 11 then 30
  else 31

/-- JS `new Date(string)` restricted to the engine's month-day-year
fallback shape that the library's README uses: one- or two-digit month
and day, four-digit year, separated by `-` or `/`, parsed at local
midnight, with calendar validity (day-of-month, leap years) checked as
the engine does (`"02-30-2024"` is an Invalid Date). Strings outside
this shape — including ISO `YYYY-MM-DD`, which the engine parses at UTC
rather than local midnight — are outside the model and map to `none`. -/
def jsDateParse (s : String) : Option Int :=
  match splitOnPred (fun c => c = '-' || c = '/') s.data with
  | [a, b, c] =>
    match digitsVal? a, digitsVal? b, digitsVal? c with
    | some m, some d, some y =>
      if a.length ≤ 2 ∧ b.length ≤ 2 ∧ c.length = 4
          ∧ 1 ≤ m ∧ m ≤ 12 ∧ 1 ≤ d ∧ d ≤ daysInMonth y m then
        some (dateEncode y m d)
      else none
    | _, _, _ => none
  | _ => none

/-- JS `new Date(x)` for a runtime value `x`: `new Date(undefined)` is an
Invalid Date (`none`), a string is parsed, a number is its time value. -/
def jsDate : JSValue → Option Int
  | .undef => none
  | .str s => jsDateParse s
  | .num n => some n
  | .bool b => some (if b then 1 else 0)

/-- The boolean preprocessing step
`(val) => (val === "true" || val === true ? true : false)`. -/
def jsBoolCoerce : JSValue → Bool
  | .str s => s = "true"
  | .bool b => b
  | _ => false

/-- A threshold value of a `number`/`date` field configuration
(`value: number | string | Date` in the source types). -/
inductive ThVal where
  | num (n : Int)
  | str (s : String)
  | dateObj (t : Int)
deriving Repr

/-- `new Date(value)` applied to a threshold value. -/
def thValToDate : ThVal → Option Int
  | .num n => some n
  | .str s => jsDateParse s
  | .dateObj t => some t

/-- JS template interpolation `${value}` of a threshold value
(display model; no claim depends on the `Date` case). -/
def thValDisplay : ThVal → String
  | .num n => toString n
  | .str s => s
  | .dateObj t => toString t

/-- Display model for `new Date(v).toLocaleDateString("en-IN", ...)`
used in the default date messages; no claim depends on its text. -/
def localeDateDisplay : Option Int → String
  | some t => toString t
  | none => "Invalid Date"

/-- A `{ value: number; message?: string }` configuration entry
(`minLength` / `maxLength`). -/
structure ValueMessage where
  value : Int
  message : Option String

/-- A `{ value: RegExp; message?: string }` configuration entry; the
`RegExp` is modelled by its match predicate. -/
structure RegexConf where
  test : String → Bool
  message : Option String

/-- A `{ value: number | string | Date; message?: string }` configuration
entry (`min` / `max`). -/
structure ThBound where
  value : ThVal
  message : Option String

/-- A runtime field configuration object (`FieldConfig` in the source
types): a `type` tag plus the optional configuration entries. -/
structure FieldConfig where
  type : String
  optional : Bool := false
  customMessage : Option String := none
  minLength : Option ValueMessage := none
  maxLength : Option ValueMessage := none
  regex : Option RegexConf := none
  min : Option ThBound := none
  max : Option ThBound := none

/-- A chained check on a `z.string()`: `.min`, `.max`, `.regex`,
`.email`, each with its message. -/
inductive StrCheck where
  | minC (value : Int) (message : String)
  | maxC (value : Int) (message : String)
  | regexC (test : String → Bool) (message : Option String)
  | emailC (message : String)

/-- A `.refine` chained on `z.preprocess((a) => Number(a), z.number())`. -/
inductive NumRefine where
  /-- `(val) => Number(val)`: truthiness of the number. -/
  | required (message : String)
  /-- `(val) => min && typeof min.value === "number" ? val >= min.value : val`. -/
  | minR (value : ThVal) (message : String)
  /-- `(val) => max && typeof max.value === "number" ? val <= max.value : val`. -/
  | maxR (value : ThVal) (message : String)

/-- A `.refine` chained on `z.preprocess((a) => new Date(a), z.date())`. -/
inductive DateRefine where
  /-- `(val) => new Date(val.toString())`: a `Date` object is always
  truthy, so this refinement always passes. -/
  | formatR (message : String)
  /-- `(val) => new Date(val.toString()) > new Date(min.value)`. -/
  | minR (value : ThVal) (message : String)
  /-- `(val) => new Date(val.toString()) < new Date(max.value)`. -/
  | maxR (value : ThVal) (message : String)

/-- A `.refine` chained on the preprocessed `z.boolean()`. -/
inductive BoolRefine where
  /-- `(val) => Boolean(val)`. -/
  | required (message : String)

/-- The zod schema shapes `useFormSchema` constructs. -/
inductive Zod where
  | str (checks : List StrCheck)
  | optionalOf (inner : Zod)
  | number (refines : List NumRefine)
  | date (refines : List DateRefine)
  | boolean (refines : List BoolRefine)

/-- Whether a character list avoids two adjacent dots. -/
def noDoubleDot : List Char → Bool
  | c1 :: c2 :: rest => !(c1 = '.' && c2 = '.') && noDoubleDot (c2 :: rest)
  | _ => true

/-- Executable model of zod's built-in email regular expression: local
part over `[A-Za-z0-9_'+-.]` not starting or ending with a dot and with
no `..`, `@`, then dot-separated alphanumeric-and-dash labels with an
alphabetic top-level label of length at least 2. -/
def zodEmail (s : String) : Bool :=
  match splitOnPred (fun c => c = '@') s.data with
  | [lp, dp] =>
    let localCharOk := fun (c : Char) =>
      c.isAlphanum || c = '_' || c = Char.ofNat 39 || c = '+' || c = '-' || c = '.'
    let labels := splitOnPred (fun c => c = '.') dp
    (!lp.isEmpty && lp.all localCharOk
      && !(lp.head? = some '.') && !(lp.getLast? = some '.') && noDoubleDot lp)
    && (labels.length ≥ 2
      && labels.dropLast.all (fun lb =>
          !lb.isEmpty && lb.all (fun c => c.isAlphanum || c = '-')
            && !(lb.head? = some '-'))
      && (match labels.getLast? with
          | some tld => tld.length ≥ 2 && tld.all Char.isAlpha
          | none => false))
  | _ => false

/-- Whether a chained string check passes on input `s`. -/
def strCheckPasses (s : String) : StrCheck → Bool
  | .minC v _ => v ≤ (s.length : Int)
  | .maxC v _ => (s.length : Int) ≤ v
  | .regexC t _ => t s
  | .emailC _ => zodEmail s

/-- The message a failing string check reports (zod's default for a
`.regex` without a message is `"Invalid"`). -/
def strCheckMessage : StrCheck → String
  | .minC _ m => m
  | .maxC _ m => m
  | .regexC _ m => m.getD "Invalid"
  | .emailC m => m

/-- Whether a number refinement passes on the parsed number `v`. When the
threshold value is not a `number`, the source predicate falls back to the
truthiness of `val`. -/
def numRefinePasses (v : Int) : NumRefine → Bool
  | .required _ => v ≠ 0
  | .minR (.num a) _ => a ≤ v
  | .minR _ _ => v ≠ 0
  | .maxR (.num b) _ => v ≤ b
  | .maxR _ _ => v ≠ 0

/-- The message of a number refinement. -/
def numRefineMessage : NumRefine → String
  | .required m => m
  | .minR _ m => m
  | .maxR _ m => m

/-- Whether a date refinement passes on the parsed time value `t`.
A comparison against an Invalid Date threshold is `NaN`-like and fails. -/
def dateRefinePasses (t : Int) : DateRefine → Bool
  | .formatR _ => true
  | .minR v _ =>
    match thValToDate v with
    | some m => m < t
    | none => false
  | .maxR v _ =>
    match thValToDate v with
    | some m => t < m
    | none => false

/-- The message of a date refinement. -/
def dateRefineMessage : DateRefine → String
  | .formatR m => m
  | .minR _ m => m
  | .maxR _ m => m

/-- Whether a boolean refinement passes on the coerced boolean. -/
def boolRefinePasses (b : Bool) : BoolRefine → Bool
  | .required _ => b

/-- The message of a boolean refinement. -/
def boolRefineMessage : BoolRefine → String
  | .required m => m

/-- Whether a compiled rule accepts a runtime value: `z.optional` accepts
`undefined` outright; base types reject mismatched or NaN-like inputs;
all chained checks and refinements must pass. -/
def accepts : Zod → JSValue → Bool
  | .str checks, .str s => checks.all (strCheckPasses s)
  | .str _, _ => false
  | .optionalOf inner, v => if v = .undef then true else accepts inner v
  | .number refines, v =>
    match jsNumber v with
    | some n => refines.all (numRefinePasses n)
    | none => false
  | .date refines, v =>
    match jsDate v with
    | some t => refines.all (dateRefinePasses t)
    | none => false
  | .boolean refines, v => refines.all (boolRefinePasses (jsBoolCoerce v))

/-- The error messages a compiled rule reports on a runtime value: a
base-type failure aborts with zod's invalid-type issue; otherwise every
failing check/refinement contributes its message in chain order. -/
def zodErrors : Zod → JSValue → List String
  | .str checks, .str s =>
    (checks.filter (fun c => !strCheckPasses s c)).map strCheckMessage
  | .str _, _ => ["Expected string"]
  | .optionalOf inner, v => if v = .undef then [] else zodErrors inner v
  | .number refines, v =>
    match jsNumber v with
    | some n => (refines.filter (fun r => !numRefinePasses n r)).map numRefineMessage
    | none => ["Expected number"]
  | .date refines, v =>
    match jsDate v with
    | some t => (refines.filter (fun r => !dateRefinePasses t r)).map dateRefineMessage
    | none => ["Invalid date"]
  | .boolean refines, v =>
    (refines.filter (fun r => !boolRefinePasses (jsBoolCoerce v) r)).map boolRefineMessage

/-- `refactorFieldName` from `src/package/_utils/index.ts`:
`fieldName[0].toUpperCase() + fieldName.slice(1)` (on the empty string
the source would throw; all theorems below use nonempty field names). -/
def refactorFieldName (fieldName : String) : String :=
  match fieldName.data with
  | [] => ""
  | c :: cs => String.mk (c.toUpper :: cs)

/-- The per-field `switch` body of `useFormSchema`: compiles one field
configuration to its zod rule, or throws on an unsupported type tag. -/
def compileField (fieldName : String) (config : FieldConfig) : Except String Zod :=
  if config.type = "string" then
    if config.optional then .ok (.optionalOf (.str []))
    else
      let checks := [StrCheck.minC 1 (config.customMessage.getD "This field is required")]
      let checks := checks ++
        (match config.minLength with
         | some b => [StrCheck.minC b.value (b.message.getD
             (refactorFieldName fieldName ++ " must be at least "
               ++ toString b.value ++ " character long"))]
         | none => [])
      let checks := checks ++
        (match config.maxLength with
         | some b => [StrCheck.maxC b.value (b.message.getD
             (refactorFieldName fieldName ++ " must be at most "
               ++ toString b.value ++ " character"))]
         | none => [])
      let checks := checks ++
        (match config.regex with
         | some r => [StrCheck.regexC r.test r.message]
         | none => [])
      .ok (.str checks)
  else if config.type = "email" then
    let inner := Zod.str [StrCheck.emailC (config.customMessage.getD "Invalid email")]
    .ok (if config.optional then .optionalOf inner else inner)
  else if config.type = "password" then
    if config.optional then .ok (.optionalOf (.str []))
    else
      let checks := [StrCheck.minC 6 (config.customMessage.getD
        (refactorFieldName fieldName ++ " must be at least "
          ++ toString (match config.minLength with | some b => b.value | none => 6)
          ++ " character long"))]
      let checks := checks ++
        (match config.minLength with
         | some b => [StrCheck.minC b.value (b.message.getD
             (refactorFieldName fieldName ++ " must be at least "
               ++ toString b.value ++ " character long"))]
         | none => [])
      let checks := checks ++
        (match config.maxLength with
         | some b => [StrCheck.maxC b.value (b.message.getD
             (refactorFieldName fieldName ++ " must be at most "
               ++ toString b.value ++ " character"))]
         | none => [])
      let checks := checks ++
        (match config.regex with
         | some r => [StrCheck.regexC r.test r.message]
         | none => [])
      .ok (.str checks)
  else if config.type = "number" then
    if config.optional then .ok (.optionalOf (.number []))
    else
      let refines := [NumRefine.required (config.customMessage.getD "This field is required")]
      let refines := refines ++
        (match config.min with
         | some m => [NumRefine.minR m.value (m.message.getD
             (refactorFieldName fieldName ++ " must be greater than or equal to "
               ++ thValDisplay m.value))]
         | none => [])
      let refines := refines ++
        (match config.max with
         | some m => [NumRefine.maxR m.value (m.message.getD
             (refactorFieldName fieldName ++ " must be less than or equal to "
               ++ thValDisplay m.value))]
         | none => [])
      .ok (.number refines)
  else if config.type = "date" then
    if config.optional then .ok (.date [])
    else
      let refines := [DateRefine.formatR (config.customMessage.getD "Invalid date format")]
      let refines := refines ++
        (match config.min with
         | some m => [DateRefine.minR m.value (m.message.getD
             (refactorFieldName fieldName ++ " must be greater than "
               ++ localeDateDisplay (thValToDate m.value)))]
         | none => [])
      let refines := refines ++
        (match config.max with
         | some m => [DateRefine.maxR m.value (m.message.getD
             (refactorFieldName fieldName ++ " must be less than "
               ++ localeDateDisplay (thValToDate m.value)))]
         | none => [])
      .ok (.date refines)
  else if config.type = "boolean" then
    if config.optional then .ok (.boolean [])
    else .ok (.boolean [BoolRefine.required (config.customMessage.getD "Invalid value")])
  else
    .error "Unsupported field type"

/-- `useFormSchema`: the single pass of the `for ... of Object.entries`
loop over the field-name-to-configuration entries, producing the
field-name-to-rule entries of the resulting `z.object` in order, or
throwing on the first unsupported type tag. -/
def useFormSchema : List (String × FieldConfig) → Except String (List (String × Zod))
  | [] => .ok []
  | (n, c) :: rest => do
    let z ← compileField n c
    let out ← useFormSchema rest
    .ok ((n, z) :: out)

/-- The closed set of six supported type tags. -/
def supportedFieldTypes : List String :=
  ["string", "email", "password", "number", "date", "boolean"]

end Formaze

namespace Formaze

lemma compileField_ok_of_supported (n : String) (c : FieldConfig)
    (h : c.type ∈ supportedFieldTypes) : ∃ z, compileField n c = .ok z := by
  simp only [supportedFieldTypes, List.mem_cons, List.not_mem_nil, or_false] at h
  unfold compileField
  rcases h with h | h | h | h | h | h <;> simp [h] <;> split <;> exact ⟨_, rfl⟩

lemma compileField_error_of_unsupported (n : String) (c : FieldConfig)
    (h : c.type ∉ supportedFieldTypes) :
    compileField n c = .error "Unsupported field type" := by
  simp only [supportedFieldTypes, List.mem_cons, List.not_mem_nil, or_false,
    not_or] at h
  obtain ⟨h1, h2, h3, h4, h5, h6⟩ := h
  unfold compileField
  simp [h1, h2, h3, h4, h5, h6]

/-- C1: `useFormSchema` compiles a closed set of exactly six field kinds:
a field whose type tag is one of `string`, `email`, `password`, `number`,
`date`, `boolean` is compiled to a rule, and a field with any other type
tag makes the compiler throw `"Unsupported field type"`. -/
theorem useFormSchema_closed_six_field_kinds (n : String) (c : FieldConfig) :
    (c.type ∈ supportedFieldTypes
      ∧ (∃ z, compileField n c = .ok z)
      ∧ (∃ out, useFormSchema [(n, c)] = .ok out))
    ∨ (c.type ∉ supportedFieldTypes
      ∧ compileField n c = .error "Unsupported field type"
      ∧ useFormSchema [(n, c)] = .error "Unsupported field type") := by
  by_cases h : c.type ∈ supportedFieldTypes
  · obtain ⟨z, hz⟩ := compileField_ok_of_supported n c h
    exact .inl ⟨h, ⟨z, hz⟩, ⟨[(n, z)],
      by simp [useFormSchema, hz, bind, Except.bind]⟩⟩
  · exact .inr ⟨h, compileField_error_of_unsupported n c h,
      by simp [useFormSchema, compileField_error_of_unsupported n c h,
        bind, Except.bind]⟩


/-- C2: for a configuration in which every field carries one of the six
supported type tags, `useFormSchema` returns a schema object whose field
names are exactly the keys of the input configuration, in order, each
bound to exactly one rule and with no extra fields. -/
theorem useFormSchema_exact_keys (cfg : List (String × FieldConfig))
    (h : ∀ p ∈ cfg, p.2.type ∈ supportedFieldTypes) :
    ∃ out, useFormSchema cfg = .ok out ∧ out.map Prod.fst = cfg.map Prod.fst := by
  induction cfg with
  | nil => exact ⟨[], rfl, rfl⟩
  | cons p rest ih =>
    obtain ⟨z, hz⟩ := compileField_ok_of_supported p.1 p.2 (h p (by simp))
    obtain ⟨out, hout, hkeys⟩ := ih (fun q hq => h q (by simp [hq]))
    refine ⟨(p.1, z) :: out, ?_, by simp [hkeys]⟩
    obtain ⟨n, c⟩ := p
    simp [useFormSchema, hz, hout, bind, Except.bind]

/-- C2 witness: a concrete three-field configuration compiles to a
schema with exactly the same keys. -/
theorem useFormSchema_exact_keys_witness :
    (∀ p ∈ [("email", ({ type := "email" } : FieldConfig)),
            ("age", { type := "number", optional := true }),
            ("terms", { type := "boolean" })], p.2.type ∈ supportedFieldTypes)
    ∧ ∃ out,
        useFormSchema
          [("email", { type := "email" }),
           ("age", { type := "number", optional := true }),
           ("terms", { type := "boolean" })] = .ok out
        ∧ out.map Prod.fst =
            ([("email", ({ type := "email" } : FieldConfig)),
              ("age", { type := "number", optional := true }),
              ("terms", { type := "boolean" })]).map Prod.fst :=
  ⟨by decide, useFormSchema_exact_keys _ (by decide)⟩


lemma one_le_length_iff (s : String) : 1 ≤ s.length ↔ s ≠ "" := by
  obtain ⟨l⟩ := s
  cases l with
  | nil => simp [String.length]
  | cons a t =>
    constructor
    · intro _ h
      have h2 := congrArg String.data h
      simp at h2
    · intro _
      exact Nat.succ_le_succ (Nat.zero_le _)

/-- C3: a non-optional `string` field compiles to exactly the configured
refinement chain: the rule accepts a string `s` iff `s` is non-empty,
`s` is at least `minLength.value` long when `minLength` is given, at
most `maxLength.value` long when `maxLength` is given, and matches
`regex.value` when `regex` is given. -/
theorem string_rule_refinement_chain (n : String) (c : FieldConfig) (z : Zod)
    (s : String) (ht : c.type = "string") (ho : c.optional = false)
    (hz : compileField n c = .ok z) :
    accepts z (.str s) = true ↔
      (s ≠ ""
        ∧ (∀ b ∈ c.minLength, b.value ≤ (s.length : Int))
        ∧ (∀ b ∈ c.maxLength, (s.length : Int) ≤ b.value)
        ∧ (∀ r ∈ c.regex, r.test s = true)) := by
  rcases hml : c.minLength with _ | bl <;>
  rcases hmx : c.maxLength with _ | bx <;>
  rcases hrg : c.regex with _ | rg <;>
  · simp [compileField, ht, ho, hml, hmx, hrg] at hz
    subst hz
    simp [accepts, strCheckPasses, one_le_length_iff]
    try tauto

/-- A concrete non-optional `string` field configuration carrying all
three optional refinements. -/
def cfgStringFull : FieldConfig :=
  { type := "string", minLength := some ⟨2, none⟩, maxLength := some ⟨4, none⟩,
    regex := some ⟨fun t => t.length ≤ 5, none⟩ }

/-- The rule `cfgStringFull` compiles to. -/
def ruleStringFull : Zod :=
  (compileField "username" cfgStringFull).toOption.getD (.str [])

/-- C3 witness: the concrete rule accepts `"abc"`, which satisfies all
the configured refinements. -/
theorem string_rule_refinement_chain_witness :
    accepts ruleStringFull (.str "abc") = true :=
  (string_rule_refinement_chain "username" cfgStringFull ruleStringFull "abc"
      rfl rfl rfl).mpr
    (by
      refine ⟨by decide, ?_, ?_, ?_⟩ <;>
        (intro b hb; rw [Option.mem_def] at hb; simp [cfgStringFull] at hb; subst hb) <;>
        decide)

/-- C5: a non-optional `password` field unconditionally requires at
least 6 characters: any string shorter than 6 is rejected, even when the
configuration carries a `minLength` smaller than 6, because the
hard-coded `.min(6, ...)` check is always chained. -/
theorem password_rule_hard_min6 (n : String) (c : FieldConfig) (z : Zod)
    (s : String) (ht : c.type = "password") (ho : c.optional = false)
    (hz : compileField n c = .ok z) (hs : (s.length : Int) < 6) :
    accepts z (.str s) = false := by
  rcases hml : c.minLength with _ | bl <;>
  rcases hmx : c.maxLength with _ | bx <;>
  rcases hrg : c.regex with _ | rg <;>
  · simp [compileField, ht, ho, hml, hmx, hrg] at hz
    subst hz
    simp [accepts, strCheckPasses]
    omega

/-- A concrete non-optional `password` field whose configured
`minLength` is smaller than 6. -/
def cfgPasswordMin2 : FieldConfig :=
  { type := "password", minLength := some ⟨2, none⟩ }

/-- The rule `cfgPasswordMin2` compiles to. -/
def rulePasswordMin2 : Zod :=
  (compileField "pin" cfgPasswordMin2).toOption.getD (.str [])

/-- C5 witness: `"abc"` satisfies the configured `minLength` of 2 but is
still rejected by the hard-coded minimum of 6. -/
theorem password_rule_hard_min6_witness :
    accepts rulePasswordMin2 (.str "abc") = false :=
  password_rule_hard_min6 "pin" cfgPasswordMin2 rulePasswordMin2 "abc"
    rfl rfl rfl (by decide)


/-- C4 counterexample configuration: a non-optional `number` field whose
numeric thresholds `[-1, 1]` contain 0. -/
def cfgNumberRange : FieldConfig :=
  { type := "number", min := some ⟨.num (-1), none⟩, max := some ⟨.num 1, none⟩ }

/-- The rule `cfgNumberRange` compiles to. -/
def ruleNumberRange : Zod :=
  (compileField "age" cfgNumberRange).toOption.getD (.number [])

/-- C4 counterexample: the input 0 satisfies both configured thresholds
(`-1 ≤ 0 ≤ 1`), yet the compiled rule rejects it, refuting the claimed
"accepts iff within thresholds" equivalence. -/
theorem number_rule_rejects_inrange_zero :
    ((-1 : Int) ≤ 0 ∧ (0 : Int) ≤ 1) ∧ accepts ruleNumberRange (.num 0) = false := by
  decide

/-- C4 (amended): a non-optional `number` field with numeric thresholds
accepts a numeric input `v` iff `v` is non-zero (the truthiness
requiredness refinement) and `v` lies within the configured thresholds. -/
theorem number_rule_nonzero_and_bounds (n : String) (c : FieldConfig) (z : Zod)
    (v : Int) (ht : c.type = "number") (ho : c.optional = false)
    (hz : compileField n c = .ok z)
    (hmin : ∀ m ∈ c.min, ∃ a, m.value = ThVal.num a)
    (hmax : ∀ m ∈ c.max, ∃ b, m.value = ThVal.num b) :
    accepts z (.num v) = true ↔
      (v ≠ 0
        ∧ (∀ m ∈ c.min, ∀ a, m.value = ThVal.num a → a ≤ v)
        ∧ (∀ m ∈ c.max, ∀ b, m.value = ThVal.num b → v ≤ b)) := by
  rcases hmn : c.min with _ | m <;> rcases hmx : c.max with _ | mx
  · simp [compileField, ht, ho, hmn, hmx] at hz
    subst hz
    simp [accepts, jsNumber, numRefinePasses]
  · obtain ⟨b, hb⟩ := hmax mx (by simp [hmx])
    obtain ⟨mxv, mxm⟩ := mx
    simp only [ThBound.value] at hb
    subst hb
    simp [compileField, ht, ho, hmn, hmx] at hz
    subst hz
    simp [accepts, jsNumber, numRefinePasses]
    try tauto
  · obtain ⟨a, ha⟩ := hmin m (by simp [hmn])
    obtain ⟨mv, mm⟩ := m
    simp only [ThBound.value] at ha
    subst ha
    simp [compileField, ht, ho, hmn, hmx] at hz
    subst hz
    simp [accepts, jsNumber, numRefinePasses]
    try tauto
  · obtain ⟨a, ha⟩ := hmin m (by simp [hmn])
    obtain ⟨b, hb⟩ := hmax mx (by simp [hmx])
    obtain ⟨mv, mm⟩ := m
    obtain ⟨mxv, mxm⟩ := mx
    simp only [ThBound.value] at ha hb
    subst ha
    subst hb
    simp [compileField, ht, ho, hmn, hmx] at hz
    subst hz
    simp [accepts, jsNumber, numRefinePasses]
    try tauto

/-- C4 witness configuration: numeric thresholds `[1, 5]`. -/
def cfgNumberOneToFive : FieldConfig :=
  { type := "number", min := some ⟨.num 1, none⟩, max := some ⟨.num 5, none⟩ }

/-- The rule `cfgNumberOneToFive` compiles to. -/
def ruleNumberOneToFive : Zod :=
  (compileField "age" cfgNumberOneToFive).toOption.getD (.number [])

/-- C4 witness: the non-zero in-range input 3 is accepted. -/
theorem number_rule_nonzero_and_bounds_witness :
    accepts ruleNumberOneToFive (.num 3) = true :=
  (number_rule_nonzero_and_bounds "age" cfgNumberOneToFive ruleNumberOneToFive 3
      rfl rfl rfl
      (by intro m hm; rw [Option.mem_def] at hm
          simp [cfgNumberOneToFive] at hm; subst hm; exact ⟨1, rfl⟩)
      (by intro m hm; rw [Option.mem_def] at hm
          simp [cfgNumberOneToFive] at hm; subst hm; exact ⟨5, rfl⟩)).mpr
    (by
      refine ⟨by decide, ?_, ?_⟩ <;>
        (intro m hm; rw [Option.mem_def] at hm
         simp [cfgNumberOneToFive] at hm; subst hm
         intro a ha; injection ha with ha2; subst ha2; decide))


/-- C6: the requiredness refinement of a non-optional `number` field
tests the truthiness of `Number(input)`, so the inputs `0`, `"0"` and
`""` (all of which coerce to the number 0) are rejected with the
required-field message even when 0 lies within every configured numeric
threshold. -/
theorem number_rule_rejects_zero_like (n : String) (c : FieldConfig) (z : Zod)
    (ht : c.type = "number") (ho : c.optional = false)
    (hz : compileField n c = .ok z)
    (hmin : ∀ m ∈ c.min, ∃ a, m.value = ThVal.num a ∧ a ≤ 0)
    (hmax : ∀ m ∈ c.max, ∃ b, m.value = ThVal.num b ∧ 0 ≤ b) :
    jsNumber (.str "0") = some 0 ∧ jsNumber (.str "") = some 0
    ∧ accepts z (.num 0) = false
    ∧ accepts z (.str "0") = false
    ∧ accepts z (.str "") = false
    ∧ zodErrors z (.num 0) = [c.customMessage.getD "This field is required"] := by
  refine ⟨by decide, by decide, ?_⟩
  rcases hmn : c.min with _ | m <;> rcases hmx : c.max with _ | mx
  · simp [compileField, ht, ho, hmn, hmx] at hz
    subst hz
    simp [accepts, zodErrors, jsNumber, numRefinePasses, numRefineMessage,
      jsStringToNumber, listTrim, digitsVal?]
  · obtain ⟨b, hb, hble⟩ := hmax mx (by simp [hmx])
    obtain ⟨mxv, mxm⟩ := mx
    simp only [ThBound.value] at hb
    subst hb
    simp [compileField, ht, ho, hmn, hmx] at hz
    subst hz
    simp [accepts, zodErrors, jsNumber, numRefinePasses, numRefineMessage,
      jsStringToNumber, listTrim, digitsVal?, hble]
  · obtain ⟨a, ha, hale⟩ := hmin m (by simp [hmn])
    obtain ⟨mv, mm⟩ := m
    simp only [ThBound.value] at ha
    subst ha
    simp [compileField, ht, ho, hmn, hmx] at hz
    subst hz
    simp [accepts, zodErrors, jsNumber, numRefinePasses, numRefineMessage,
      jsStringToNumber, listTrim, digitsVal?, hale]
  · obtain ⟨a, ha, hale⟩ := hmin m (by simp [hmn])
    obtain ⟨b, hb, hble⟩ := hmax mx (by simp [hmx])
    obtain ⟨mv, mm⟩ := m
    obtain ⟨mxv, mxm⟩ := mx
    simp only [ThBound.value] at ha hb
    subst ha
    subst hb
    simp [compileField, ht, ho, hmn, hmx] at hz
    subst hz
    simp [accepts, zodErrors, jsNumber, numRefinePasses, numRefineMessage,
      jsStringToNumber, listTrim, digitsVal?, hale, hble]

/-- C6 witness configuration: numeric thresholds `[-5, 5]` around 0 and
no custom message. -/
def cfgNumberAroundZero : FieldConfig :=
  { type := "number", min := some ⟨.num (-5), none⟩, max := some ⟨.num 5, none⟩ }

/-- The rule `cfgNumberAroundZero` compiles to. -/
def ruleNumberAroundZero : Zod :=
  (compileField "amount" cfgNumberAroundZero).toOption.getD (.number [])

/-- C6 witness: the concrete in-range zero-like inputs are rejected with
the default required-field message. -/
theorem number_rule_rejects_zero_like_witness :
    jsNumber (.str "0") = some 0 ∧ jsNumber (.str "") = some 0
    ∧ accepts ruleNumberAroundZero (.num 0) = false
    ∧ accepts ruleNumberAroundZero (.str "0") = false
    ∧ accepts ruleNumberAroundZero (.str "") = false
    ∧ zodErrors ruleNumberAroundZero (.num 0) = ["This field is required"] :=
  number_rule_rejects_zero_like "amount" cfgNumberAroundZero ruleNumberAroundZero
    rfl rfl rfl
    (by intro m hm; rw [Option.mem_def] at hm
        simp [cfgNumberAroundZero] at hm; subst hm; exact ⟨-5, rfl, by decide⟩)
    (by intro m hm; rw [Option.mem_def] at hm
        simp [cfgNumberAroundZero] at hm; subst hm; exact ⟨5, rfl, by decide⟩)

/-- C8 configuration: a non-optional `date` field with the README's
minimum `"09-30-2024"`. -/
def cfgDateMin : FieldConfig :=
  { type := "date", min := some ⟨.str "09-30-2024", none⟩ }

/-- The rule `cfgDateMin` compiles to. -/
def ruleDateMin : Zod :=
  (compileField "dob" cfgDateMin).toOption.getD (.date [])

/-- C8 counterexample: an input date equal to the configured minimum
parses to exactly the minimum time value yet is rejected, because the
source compares with strict `>`; this refutes the claim that a date
equal to the minimum is accepted. -/
theorem date_rule_equal_min_rejected :
    jsDateParse "09-30-2024" = some 20240930
    ∧ thValToDate (ThVal.str "09-30-2024") = some 20240930
    ∧ accepts ruleDateMin (.str "09-30-2024") = false := by
  decide

/-- C8 (amended): a non-optional `date` field with a `min` threshold
treats `min.value` as a strict lower bound: a parsed date strictly
earlier than the configured minimum is rejected, and a parsed date
equal to the configured minimum is rejected as well, because the source
compares with strict `>`. -/
theorem date_rule_min_rejects_up_to_min (n : String) (c : FieldConfig) (z : Zod)
    (s : String) (t minT : Int) (m : ThBound)
    (ht : c.type = "date") (ho : c.optional = false)
    (hmn : c.min = some m)
    (hminT : thValToDate m.value = some minT)
    (hz : compileField n c = .ok z) (hs : jsDateParse s = some t)
    (hle : t ≤ minT) :
    accepts z (.str s) = false := by
  obtain ⟨mv, mm⟩ := m
  simp only [ThBound.value] at hminT
  rcases hmx : c.max with _ | mx <;>
  · simp [compileField, ht, ho, hmn, hmx] at hz
    subst hz
    simp [accepts, jsDate, hs, dateRefinePasses, hminT]
    omega

/-- C8 witness: with minimum `"09-30-2024"`, both the strictly earlier
date `"09-29-2024"` and the equal date `"09-30-2024"` are rejected. -/
theorem date_rule_min_rejects_up_to_min_witness :
    accepts ruleDateMin (.str "09-29-2024") = false
    ∧ accepts ruleDateMin (.str "09-30-2024") = false :=
  ⟨date_rule_min_rejects_up_to_min "dob" cfgDateMin ruleDateMin "09-29-2024"
      20240929 20240930 ⟨.str "09-30-2024", none⟩ rfl rfl rfl (by decide) rfl
      (by decide) (by decide),
   date_rule_min_rejects_up_to_min "dob" cfgDateMin ruleDateMin "09-30-2024"
      20240930 20240930 ⟨.str "09-30-2024", none⟩ rfl rfl rfl (by decide) rfl
      (by decide) (by decide)⟩


/-- C9: an `optional: true` `date` field compiles to a bare preprocessed
date rule, not a `z.optional` wrapper: a missing (`undefined`) input is
preprocessed into an Invalid Date and rejected — unlike optional
`string`, `email`, `password` and `number` fields, whose compiled rules
all accept `undefined`. -/
theorem optional_date_rule_not_wrapped (n : String) (c : FieldConfig)
    (ht : c.type = "date") (ho : c.optional = true) :
    compileField n c = .ok (Zod.date [])
    ∧ (∀ inner, Zod.date [] ≠ Zod.optionalOf inner)
    ∧ accepts (Zod.date []) .undef = false
    ∧ (∀ (n2 : String) (c2 : FieldConfig) (z2 : Zod),
        c2.optional = true →
        c2.type ∈ ["string", "email", "password", "number"] →
        compileField n2 c2 = .ok z2 → accepts z2 .undef = true) := by
  refine ⟨by simp [compileField, ht, ho], ?_, by decide, ?_⟩
  · intro inner h
    exact Zod.noConfusion h
  intro n2 c2 z2 ho2 ht2 hz2
  simp only [List.mem_cons, List.not_mem_nil, or_false] at ht2
  rcases ht2 with h | h | h | h <;>
  · simp [compileField, h, ho2] at hz2
    subst hz2
    simp [accepts]

/-- C9 witness: the concrete optional date field of the repository's
demo compiles to the bare date rule and rejects a missing input. -/
theorem optional_date_rule_not_wrapped_witness :
    compileField "dob" { type := "date", optional := true } = .ok (Zod.date [])
    ∧ accepts (Zod.date []) .undef = false :=
  ⟨(optional_date_rule_not_wrapped "dob" { type := "date", optional := true }
      rfl rfl).1,
   (optional_date_rule_not_wrapped "dob" { type := "date", optional := true }
      rfl rfl).2.2.1⟩


/-- C10: when a non-optional `string` field's `minLength` omits a custom
message, the compiled `.min` check carries the default message built by
string formatting: the field name with its first character uppercased,
then `" must be at least "`, the configured value, and
`" character long"`. -/
theorem string_minLength_default_message (n : String) (c : FieldConfig) (z : Zod)
    (v : Int) (c0 : Char) (rest : List Char)
    (hn : n.data = c0 :: rest)
    (ht : c.type = "string") (ho : c.optional = false)
    (hm : c.minLength = some ⟨v, none⟩)
    (hz : compileField n c = .ok z) :
    ∃ checks, z = Zod.str checks
      ∧ StrCheck.minC v (String.mk (c0.toUpper :: rest) ++ " must be at least "
          ++ toString v ++ " character long") ∈ checks := by
  rcases hmx : c.maxLength with _ | bx <;>
  rcases hrg : c.regex with _ | rg <;>
  · simp [compileField, ht, ho, hm, hmx, hrg] at hz
    subst hz
    refine ⟨_, rfl, ?_⟩
    simp [refactorFieldName, hn]

/-- C10 witness: the demo's `password: { type: "string", minLength:
{ value: 8 } }` field gets the default message
`"Password must be at least 8 character long"`. -/
theorem string_minLength_default_message_witness :
    ∃ checks,
      (compileField "password"
          { type := "string", minLength := some ⟨8, none⟩ }).toOption.getD (.str [])
        = Zod.str checks
      ∧ StrCheck.minC 8 (String.mk ('p'.toUpper :: "assword".data)
          ++ " must be at least " ++ toString (8 : Int) ++ " character long") ∈ checks :=
  string_minLength_default_message "password"
    { type := "string", minLength := some ⟨8, none⟩ }
    ((compileField "password"
        { type := "string", minLength := some ⟨8, none⟩ }).toOption.getD (.str []))
    8 'p' "assword".data rfl rfl rfl rfl rfl


/-- C7 configuration: an `email` field carrying a `regex` refinement
that matches only `"admin@example.com"`. -/
def cfgEmailRegex : FieldConfig :=
  { type := "email", regex := some ⟨fun s => s = "admin@example.com", none⟩ }

/-- The rule `cfgEmailRegex` compiles to. -/
def ruleEmailRegex : Zod :=
  (compileField "email" cfgEmailRegex).toOption.getD (.str [])

/-- C7 (code bug): the `email` branch of the compiler never reads the
configured `regex`, so the compiled rule is the bare email-format check
and accepts the well-formed address `"a@b.co"` even though the
configured pattern rejects it. -/
theorem email_rule_ignores_regex :
    (∀ r ∈ cfgEmailRegex.regex, r.test "a@b.co" = false)
    ∧ zodEmail "a@b.co" = true
    ∧ ruleEmailRegex = Zod.str [StrCheck.emailC "Invalid email"]
    ∧ accepts ruleEmailRegex (.str "a@b.co") = true := by
  refine ⟨?_, by decide, rfl, by decide⟩
  intro r hr
  rw [Option.mem_def] at hr
  simp [cfgEmailRegex] at hr
  subst hr
  decide

end Formaze
